import Mathlib

/-!
Verification development for the SPIR-V algebra-transform lowering pass
(`llpcSpirvLowerAlgebraTransform.cpp`).

The pass is embedded shallowly:

* IEEE-754 bit patterns (plain `Nat`s split into sign/exponent/mantissa
  fields) model `APFloat` values and `ConstantFP` constants;
* a single instruction list models the entry function's instructions in
  program order (basic blocks flattened).  The C++ scan advances the
  iterator past the current instruction before any removal, so one list
  element is consumed per step; the recursion below carries a fuel that is
  initialised to the instruction count, which mirrors exactly that scan;
* the generic LLVM constant folder (`ConstantFoldInstruction`) is an
  external collaborator of the pass and is therefore a parameter `g` of the
  driver;
* `replaceAllUsesWith` is modeled as operand rewriting over the
  instructions that follow the definition: in SSA form every use is
  dominated by its definition, so in a flattened program all uses of an
  instruction occur after it.
-/

/-- Fast-math flag bits of an instruction (LLVM `FastMathFlags`). -/
structure FastMathFlags where
  allowReassoc : Bool
  noNaNs : Bool
  noInfs : Bool
  noSignedZeros : Bool
  allowReciprocal : Bool
  allowContract : Bool
  approxFunc : Bool
deriving DecidableEq, Repr

/-- `FastMathFlags::any()`: at least one flag bit is set. -/
def FastMathFlags.any (f : FastMathFlags) : Bool :=
  f.allowReassoc || f.noNaNs || f.noInfs || f.noSignedZeros ||
    f.allowReciprocal || f.allowContract || f.approxFunc

/-- The empty fast-math flag set; also the flags of a freshly created call
instruction (`EmitCall` does not set any fast-math flags). -/
def FMF0 : FastMathFlags := ⟨false, false, false, false, false, false, false⟩

/-- The three floating-point bit-widths handled by the pass. -/
inductive FPWidth
  | w16
  | w32
  | w64
deriving DecidableEq, Repr

/-- Exponent field width of an IEEE format. -/
def FPWidth.expBits : FPWidth → Nat
  | .w16 => 5
  | .w32 => 8
  | .w64 => 11

/-- Mantissa (trailing significand) field width of an IEEE format. -/
def FPWidth.manBits : FPWidth → Nat
  | .w16 => 10
  | .w32 => 23
  | .w64 => 52

/-- A scalar floating-point constant, held as its IEEE bit pattern
(an `APFloat` / scalar `ConstantFP`). -/
structure FPScalar where
  width : FPWidth
  bits : Nat
deriving DecidableEq, Repr

/-- Biased exponent field. -/
def FPScalar.exponent (c : FPScalar) : Nat :=
  c.bits / 2 ^ c.width.manBits % 2 ^ c.width.expBits

/-- Trailing mantissa field. -/
def FPScalar.mantissa (c : FPScalar) : Nat :=
  c.bits % 2 ^ c.width.manBits

/-- Sign bit (0 = positive, 1 = negative). -/
def FPScalar.sign (c : FPScalar) : Nat :=
  c.bits / 2 ^ (c.width.expBits + c.width.manBits) % 2

/-- `APFloat::isFinite`: the exponent field is not all-ones. -/
def FPScalar.isFiniteFP (c : FPScalar) : Bool :=
  c.exponent != 2 ^ c.width.expBits - 1

/-- `APFloat::isZero`: positive or negative zero. -/
def FPScalar.isZeroFP (c : FPScalar) : Bool :=
  c.exponent == 0 && c.mantissa == 0

/-- `APFloat::isDenormal`: zero exponent field with a non-zero mantissa. -/
def FPScalar.isDenormalFP (c : FPScalar) : Bool :=
  c.exponent == 0 && c.mantissa != 0

/-- `APFloat::isNormal`: finite, non-zero and not denormal, i.e. the biased
exponent lies strictly between 0 and the all-ones pattern. -/
def FPScalar.isNormalFP (c : FPScalar) : Bool :=
  0 < c.exponent && c.exponent < 2 ^ c.width.expBits - 1

/-- Modelled from the spec: the denormal-flush-to-zero control is a bitmask
with an independent lane for 16-bit types (§3, §6 of the spec); the numeric
lane values come from an external SPIR-V header that is not part of the
provided sources, so only distinctness of the three bits matters. -/
def SPIRVTW_16Bit : Nat := 2

/-- Modelled from the spec: bitmask lane for 32-bit types (see
`SPIRVTW_16Bit`). -/
def SPIRVTW_32Bit : Nat := 4

/-- Modelled from the spec: bitmask lane for 64-bit types (see
`SPIRVTW_16Bit`). -/
def SPIRVTW_64Bit : Nat := 8

/-- The floating-point control flags supplied per function by the
shader-resource usage tracker (`builtInUsage.common`): a flush-to-zero
bitmask over the 16/32/64-bit lanes and a signed-zero/NaN/Inf preservation
mask. Read-only to the pass. -/
structure FpControlFlags where
  denormFlushToZero : Nat
  signedZeroInfNanPreserve : Nat
deriving DecidableEq, Repr

/-- The result type of an instruction, as far as the pass inspects it
(`Type::isHalfTy` / `isFloatTy` / `isDoubleTy` / `isFPOrFPVectorTy`). -/
inductive DestType
  | scalar (w : FPWidth)
  | fpVector (w : FPWidth) (n : Nat)
  | nonFP
deriving DecidableEq, Repr

/-- `Type::isHalfTy`: a scalar 16-bit float type. -/
def DestType.isHalfTy : DestType → Bool
  | .scalar .w16 => true
  | _ => false

/-- `Type::isFloatTy`: a scalar 32-bit float type. -/
def DestType.isFloatTy : DestType → Bool
  | .scalar .w32 => true
  | _ => false

/-- `Type::isDoubleTy`: a scalar 64-bit float type. -/
def DestType.isDoubleTy : DestType → Bool
  | .scalar .w64 => true
  | _ => false

/-- `Type::isFPOrFPVectorTy`. -/
def DestType.isFPOrFPVectorTy : DestType → Bool
  | .scalar _ => true
  | .fpVector _ _ => true
  | .nonFP => false

/-- A folded constant value: scalar `ConstantFP`, vector of floats,
`ConstantAggregateZero`, `ConstantInt` (held by its zero-extended value), or
any other constant kind the pass treats opaquely. -/
inductive ConstVal
  | fp (c : FPScalar)
  | fpVec (cs : List FPScalar)
  | aggZero
  | int (v : Nat)
  | otherConst
deriving DecidableEq, Repr

/-- `Constant::isFiniteNonZeroFP`: a floating constant (scalar or vector)
all of whose elements are finite and non-zero; false for non-FP constants. -/
def ConstVal.isFiniteNonZeroFP : ConstVal → Bool
  | .fp c => c.isFiniteFP && !c.isZeroFP
  | .fpVec cs => cs.all fun c => c.isFiniteFP && !c.isZeroFP
  | _ => false

/-- `Constant::isNormalFP`: a floating constant (scalar or vector) all of
whose elements are normal; false for non-FP constants. -/
def ConstVal.isNormalFP : ConstVal → Bool
  | .fp c => c.isNormalFP
  | .fpVec cs => cs.all fun c => c.isNormalFP
  | _ => false

/-- `ConstantFP::get(ty, 0.0)`: the positive zero of the given type.  The
flush path below only reaches this with a scalar type (the three width tests
accept scalar types only); the vector arm mirrors LLVM's canonical all-zero
aggregate. -/
def constFPZero : DestType → ConstVal
  | .scalar w => .fp ⟨w, 0⟩
  | .fpVector _ _ => .aggZero
  | .nonFP => .aggZero

/-- The denormal-flush step applied to a successfully folded constant
(lines 127-135 of the source): if the destination type is a scalar
half/float/double whose flush-to-zero lane is set and the constant is a
finite, non-zero, non-normal value, it is replaced by
`ConstantFP::get(pDestType, 0.0)`. -/
def flushDenormIfNeeded (fl : FpControlFlags) (ty : DestType) (c : ConstVal) :
    ConstVal :=
  let flagged : Bool :=
    (ty.isHalfTy && ((fl.denormFlushToZero &&& SPIRVTW_16Bit) != 0)) ||
    (ty.isFloatTy && ((fl.denormFlushToZero &&& SPIRVTW_32Bit) != 0)) ||
    (ty.isDoubleTy && ((fl.denormFlushToZero &&& SPIRVTW_64Bit) != 0))
  if flagged then
    if c.isFiniteNonZeroFP && !c.isNormalFP then constFPZero ty else c
  else c

/-! ### Half-to-float unpack specialization (`_Z14unpackHalf2x16i`) -/

/-- Sign bit of a 16-bit half pattern. -/
def halfSign (h : Nat) : Nat := h / 2 ^ 15 % 2

/-- Biased exponent field of a 16-bit half pattern. -/
def halfExp (h : Nat) : Nat := h / 2 ^ 10 % 2 ^ 5

/-- Mantissa field of a 16-bit half pattern. -/
def halfMan (h : Nat) : Nat := h % 2 ^ 10

/-- `APFloat::isDenormal` on a raw half pattern. -/
def halfIsDenormal (h : Nat) : Bool := halfExp h == 0 && halfMan h != 0

/-- Sign bit of a 32-bit float pattern. -/
def floatSign (f : Nat) : Nat := f / 2 ^ 31 % 2

/-- Biased exponent field of a 32-bit float pattern. -/
def floatExp (f : Nat) : Nat := f / 2 ^ 23 % 2 ^ 8

/-- Mantissa field of a 32-bit float pattern. -/
def floatMan (f : Nat) : Nat := f % 2 ^ 23

/-- `APFloat::isDenormal` on a raw float pattern. -/
def floatIsDenormal (f : Nat) : Bool := floatExp f == 0 && floatMan f != 0

/-- `APFloat::convert(IEEEsingle, rmTowardZero)` applied to an IEEE half bit
pattern.  Every half value is exactly representable in single precision
(infinities and NaNs keep their sign and payload, with the payload shifted
into the wider mantissa field; subnormal halves are renormalised), so the
conversion is exact and the rounding mode is immaterial; this is proved for
the inputs the pass produces in `halfToFloat_exact` below. -/
def halfBitsToFloatBits (h : Nat) : Nat :=
  if halfExp h = 31 then
    halfSign h * 2 ^ 31 + 255 * 2 ^ 23 + halfMan h * 2 ^ 13
  else if halfExp h = 0 then
    if halfMan h = 0 then halfSign h * 2 ^ 31
    else
      halfSign h * 2 ^ 31 + (Nat.log2 (halfMan h) + 103) * 2 ^ 23 +
        (halfMan h * 2 ^ (24 - (Nat.log2 (halfMan h) + 1)) - 2 ^ 23)
  else
    halfSign h * 2 ^ 31 + (halfExp h + 112) * 2 ^ 23 + halfMan h * 2 ^ 13

/-- The per-lane flush of the unpack specialization: a denormal input half
is replaced by `APFloat(APFloat::IEEEhalf(), 0)`, whose bit pattern is `0`
(positive zero), before widening. -/
def laneFlush (h : Nat) : Nat := if halfIsDenormal h then 0 else h

/-- Value semantics of a finite half bit pattern, scaled by `2 ^ 149` (the
reciprocal of the smallest positive single-precision subnormal), so that
every finite half and float value is an integer.  Meaningful only when
`halfExp h` is not the all-ones pattern 31. -/
def halfValScaled (h : Nat) : Int :=
  let mag : Nat :=
    if halfExp h = 0 then halfMan h * 2 ^ 125
    else (2 ^ 10 + halfMan h) * 2 ^ (halfExp h + 124)
  if halfSign h = 1 then -(mag : Int) else (mag : Int)

/-- Value semantics of a finite float bit pattern, scaled by `2 ^ 149`.
Meaningful only when `floatExp f` is not the all-ones pattern 255. -/
def floatValScaled (f : Nat) : Int :=
  let mag : Nat :=
    if floatExp f = 0 then floatMan f
    else (2 ^ 23 + floatMan f) * 2 ^ (floatExp f - 1)
  if floatSign f = 1 then -(mag : Int) else (mag : Int)

/-- `ConstantVector::get`: LLVM canonicalises a vector whose elements are
all the null value (positive zero for floats) to `ConstantAggregateZero`. -/
def constantVectorGet (cs : List FPScalar) : ConstVal :=
  if cs.all fun c => c.bits == 0 then .aggZero else .fpVec cs

/-- The constant folding of `_Z14unpackHalf2x16i` performed by the pass
(lines 156-185 of the source): split the zero-extended 32-bit argument into
the low and high 16-bit lanes, decode each as an IEEE half, flush denormal
inputs to (positive) zero, widen with round-toward-zero, and pack the two
floats into a 2-lane vector constant. -/
def unpackHalf2x16Fold (v : Nat) : ConstVal :=
  let h0 := v % 2 ^ 16
  let h1 := v / 2 ^ 16 % 2 ^ 16
  constantVectorGet
    [⟨.w32, halfBitsToFloatBits (laneFlush h0)⟩,
     ⟨.w32, halfBitsToFloatBits (laneFlush h1)⟩]

/-! ### The instruction graph -/

/-- An operand of an instruction: a constant, a reference to the result of
the instruction with the given id, or a function argument (any value that is
neither a constant nor an instruction of this function). -/
inductive Opnd
  | const (c : ConstVal)
  | ref (id : Nat)
  | arg (n : Nat)
deriving DecidableEq, Repr

/-- The four floating binary opcodes the simplifier rewrites. -/
inductive FOp
  | fadd
  | fsub
  | fmul
  | fdiv
deriving DecidableEq, Repr

/-- Instruction payloads, as far as the pass distinguishes them: scalar
floating binary operators, integer binary operators (visited by the binary
visitor but matching none of the float opcodes), calls, and every other
instruction kind collapsed into `generic` with the attributes the pass
queries (result type, side effects, terminator-ness, operands). -/
inductive IOp
  | fbin (o : FOp) (w : FPWidth) (a b : Opnd)
  | ibin (a b : Opnd)
  | call (fname : String) (retTy : DestType) (pureCall : Bool)
      (args : List Opnd)
  | generic (retTy : DestType) (sideEffect : Bool) (isTerm : Bool)
      (args : List Opnd)
deriving DecidableEq, Repr

/-- The operand list of an instruction.  For calls these are the argument
operands; LLVM additionally stores the callee as a trailing operand, which
is accounted for in `Inst.numOperands`. -/
def IOp.operandList : IOp → List Opnd
  | .fbin _ _ a b => [a, b]
  | .ibin a b => [a, b]
  | .call _ _ _ args => args
  | .generic _ _ _ args => args

/-- Rewrite every operand (the core of `replaceAllUsesWith`). -/
def IOp.mapOperands (f : Opnd → Opnd) : IOp → IOp
  | .fbin o w a b => .fbin o w (f a) (f b)
  | .ibin a b => .ibin (f a) (f b)
  | .call n t p args => .call n t p (args.map f)
  | .generic t se te args => .generic t se te (args.map f)

/-- An instruction: an SSA id naming its result, its payload, and its
fast-math flags. -/
structure Inst where
  id : Nat
  op : IOp
  fmf : FastMathFlags
deriving DecidableEq, Repr

/-- `Value::getNumOperands`.  A call's operands are its arguments plus the
trailing callee operand. -/
def Inst.numOperands (i : Inst) : Nat :=
  match i.op with
  | .call _ _ _ args => args.length + 1
  | op => op.operandList.length

/-- The result type of an instruction (`Instruction::getType`). -/
def Inst.destTy (i : Inst) : DestType :=
  match i.op with
  | .fbin _ w _ _ => .scalar w
  | .ibin _ _ => .nonFP
  | .call _ t _ _ => t
  | .generic t _ _ _ => t

/-- `isa<Constant>(getOperand(0))`.  For a call, `getOperand(0)` is the
first argument.  (The corner case of a zero-argument call, whose operand 0
would be the callee constant, does not arise in the scanned shader code and
is conservatively mapped to `false`.) -/
def Inst.firstOperandIsConst (i : Inst) : Bool :=
  match i.op.operandList.head? with
  | some (Opnd.const _) => true
  | some _ => false
  | none => false

/-- Whether the instruction is free of observable side effects (the
side-effect half of `wouldInstructionBeTriviallyDead`); a call to an
unknown external function is conservatively impure. -/
def Inst.sideEffectFree (i : Inst) : Bool :=
  match i.op with
  | .fbin _ _ _ _ => true
  | .ibin _ _ => true
  | .call _ _ pureCall _ => pureCall
  | .generic _ se _ _ => !se

/-- Whether the instruction is a block terminator. -/
def Inst.isTerminator (i : Inst) : Bool :=
  match i.op with
  | .generic _ _ t _ => t
  | _ => false

/-- The instruction with fast-math flags erased; used to state which parts
of the graph a run leaves untouched. -/
def stripFmf (i : Inst) : Inst := { i with fmf := FMF0 }

/-- Whether any instruction of the list uses the value with SSA id `n`
(in SSA form all uses of an instruction occur after it, so `use_empty` is
computed over the instructions that follow). -/
def usesRef (n : Nat) (l : List Inst) : Bool :=
  l.any fun i => i.op.operandList.any fun o => decide (o = Opnd.ref n)

/-- `replaceAllUsesWith`: rewrite every use of the value with id `n` to the
operand `v` in the given (following) instructions. -/
def replaceUses (n : Nat) (v : Opnd) (l : List Inst) : List Inst :=
  l.map fun i =>
    { i with op := i.op.mapOperands fun o => if o = Opnd.ref n then v else o }

/-- `isInstructionTriviallyDead`: no remaining uses, no observable side
effect, and not a terminator. -/
def isTrivDead (i : Inst) (later : List Inst) : Bool :=
  !usesRef i.id later && i.sideEffectFree && !i.isTerminator

/-! ### Phase 1: DCE, constant folding, half-unpack specialization -/

/-- The decision taken for one instruction of the phase-1 scan. -/
inductive P1Step
  | erase
  | keepInst
  | subst (c : ConstVal)
deriving DecidableEq, Repr

/-- One step of the phase-1 scan over instruction `i` with the following
instructions `rest` (lines 101-199 of the source): DCE a trivially dead
instruction; skip instructions that are unused, operand-less, not
FP-or-FP-vector typed, or whose first operand is not a constant; otherwise
attempt the generic constant fold `g` (applying the denormal flush to its
result) and, failing that, the `_Z14unpackHalf2x16i` special case when the
16-bit flush lane is set and the argument is a `ConstantInt`. -/
def phase1Step (g : IOp → Option ConstVal) (fl : FpControlFlags) (i : Inst)
    (rest : List Inst) : P1Step :=
  if isTrivDead i rest then .erase
  else if !usesRef i.id rest || i.numOperands == 0 ||
      !i.destTy.isFPOrFPVectorTy || !i.firstOperandIsConst then .keepInst
  else
    match g i.op with
    | some c => .subst (flushDenormIfNeeded fl i.destTy c)
    | none =>
      match i.op with
      | .call fname _ _ args =>
        if ((fl.denormFlushToZero &&& SPIRVTW_16Bit) != 0) &&
            fname == "_Z14unpackHalf2x16i" then
          match args.head? with
          | some (Opnd.const (ConstVal.int v)) => .subst (unpackHalf2x16Fold v)
          | _ => .keepInst
        else .keepInst
      | _ => .keepInst

/-- The phase-1 scan.  On a substitution, all uses are replaced with the
folded constant and the instruction is then erased when trivially dead;
`m_changed` is threaded as the boolean accumulator.  The fuel equals the
number of remaining instructions (each step consumes exactly one, and
`replaceUses` preserves length). -/
def phase1Go (g : IOp → Option ConstVal) (fl : FpControlFlags) :
    Nat → List Inst → Bool → List Inst × Bool
  | 0, p, ch => (p, ch)
  | _ + 1, [], ch => ([], ch)
  | fuel + 1, i :: rest, ch =>
    match phase1Step g fl i rest with
    | .erase => phase1Go g fl fuel rest true
    | .keepInst =>
      let r := phase1Go g fl fuel rest ch
      (i :: r.1, r.2)
    | .subst c =>
      let rest2 := replaceUses i.id (.const c) rest
      if isTrivDead i rest2 then phase1Go g fl fuel rest2 true
      else
        let r := phase1Go g fl fuel rest2 true
        (i :: r.1, r.2)

/-! ### Phase 2: the binary-operator visitor -/

/-- The backward query `IsOperandNoContract` (lines 328-352 of the source),
over the instruction graph: a non-`BinaryOperator` value answers `false`; a
floating binary operator carrying some fast-math bits but not the
contract-allowed bit answers `true` immediately; otherwise the query
recurses into the operator's first operand only.  The fuel is a modelling
device bounding the recursion depth (the C++ recursion terminates because
SSA def-use chains are acyclic; the driver below passes one more than the
program length, which covers every well-formed chain). -/
def isNoContractIn (p : List Inst) : Nat → Opnd → Bool
  | 0, _ => false
  | fuel + 1, .ref n =>
    match p.find? fun j => j.id == n with
    | some j =>
      match j.op with
      | .fbin _ _ a _ =>
        if j.fmf.any && !j.fmf.allowContract then true
        else isNoContractIn p fuel a
      | .ibin a _ => isNoContractIn p fuel a
      | _ => false
    | none => false
  | _ + 1, _ => false

/-- The contraction-flag normalization of `visitBinaryOperator` (lines
228-242 of the source), applied to float adds that currently allow
contraction: reassociation and contraction are set together to the negation
of "either operand's chain disallows contraction". -/
def contractFlagStep (ctx : List Inst) (i : Inst) : Inst :=
  match i.op with
  | .fbin .fadd _ a b =>
    if i.fmf.allowContract then
      let hasNoContract :=
        isNoContractIn ctx (ctx.length + 1) a ||
          isNoContractIn ctx (ctx.length + 1) b
      let allow := !hasNoContract
      { i with fmf :=
          { i.fmf with allowReassoc := allow, allowContract := allow } }
    else i
  | _ => i

/-- `ConstantAggregateZero` or a zero `ConstantFP` (lines 222-225 of the
source); this accepts negative zero, since `ConstantFP::isZero` does. -/
def isConstZero : Opnd → Bool
  | .const .aggZero => true
  | .const (.fp c) => c.isZeroFP
  | _ => false

/-- The identity-simplification table (lines 248-298 of the source), gated
on both control masks being zero.  The result, when present, is the operand
that replaces the instruction. -/
def identitySimplify (fl : FpControlFlags) (o : FOp) (a b : Opnd) :
    Option Opnd :=
  if fl.denormFlushToZero == 0 && fl.signedZeroInfNanPreserve == 0 then
    match o with
    | .fadd =>
      if isConstZero a then some b
      else if isConstZero b then some a
      else none
    | .fmul =>
      if isConstZero a then some a
      else if isConstZero b then some b
      else none
    | .fdiv =>
      if isConstZero a && !isConstZero b then some a else none
    | .fsub => if isConstZero b then some a else none
  else none

/-- Modelled from the spec: the builtin call-emission collaborator
(`SPIRV::mangleBuiltin` together with `EmitCall`, §6 of the spec) derives
the callee name deterministically from the base name and the argument
types; the concrete scheme lives outside the provided sources, so any
deterministic injection of the argument types into the name serves. -/
def mangleBuiltin (base : String) (argTys : List DestType) : String :=
  base ++ String.join (argTys.map fun t =>
    match t with
    | .scalar .w16 => ".f16"
    | .scalar .w32 => ".f32"
    | .scalar .w64 => ".f64"
    | .fpVector _ _ => ".v"
    | .nonFP => ".i")

/-- The outcome of visiting one binary operator. -/
inductive Phase2Out
  | keep (i : Inst)
  | replaced (v : Opnd)
  | fdivCall (c : Inst)
deriving DecidableEq, Repr

/-- `visitBinaryOperator` (lines 215-323 of the source) on instruction `i`
in the current program `ctx`: Step A rewrites the contraction flags of
float adds; Step B consults the identity table and, on a hit, replaces all
uses with the chosen operand and erases the instruction; Step C rewrites
every division not resolved by Step B into a call of the runtime `fdiv`
with the two original operands and the original result type.  (The C++
additionally null-checks the two operand pointers before Step C; operands
always exist in this model.) -/
def phase2Step (fl : FpControlFlags) (ctx : List Inst) (i : Inst) :
    Phase2Out :=
  match i.op with
  | .fbin o w a b =>
    let i2 := contractFlagStep ctx i
    match identitySimplify fl o a b with
    | some d => .replaced d
    | none =>
      if o = .fdiv then
        .fdivCall
          { id := i.id,
            op := .call (mangleBuiltin "fdiv" [.scalar w, .scalar w])
              (.scalar w) false [a, b],
            fmf := FMF0 }
      else .keep i2
  | _ => .keep i

/-- The phase-2 visitor scan: `done` holds the already visited
instructions, `todo` the rest; the query context is the whole current
program.  Erasing the visited instruction or replacing it by the emitted
`fdiv` call sets `m_changed`; rewriting only the fast-math flags does not
(the source has no `m_changed = true` in the flag-rewrite block). -/
def phase2Go (fl : FpControlFlags) :
    Nat → List Inst → List Inst → Bool → List Inst × Bool
  | 0, done, todo, ch => (done ++ todo, ch)
  | _ + 1, done, [], ch => (done, ch)
  | fuel + 1, done, i :: rest, ch =>
    match phase2Step fl (done ++ i :: rest) i with
    | .keep j => phase2Go fl fuel (done ++ [j]) rest ch
    | .replaced v => phase2Go fl fuel done (replaceUses i.id v rest) true
    | .fdivCall c => phase2Go fl fuel (done ++ [c]) rest true

/-- The two configuration booleans fixed at pass construction. -/
structure PassConfig where
  enableConstFolding : Bool
  enableFloatOpt : Bool
deriving DecidableEq, Repr

/-- `SpirvLowerAlgebraTransform::runOnModule` (lines 81-211 of the source):
reset `m_changed`, run the phase-1 scan when constant folding is enabled
and the flush mask is non-zero, run the phase-2 visitor when float
optimisation is enabled, and return `m_changed`.  `g` is the external
generic constant folder. -/
def runOnModule (g : IOp → Option ConstVal) (cfg : PassConfig)
    (fl : FpControlFlags) (prog : List Inst) : List Inst × Bool :=
  let r1 :=
    if cfg.enableConstFolding && fl.denormFlushToZero != 0 then
      phase1Go g fl prog.length prog false
    else (prog, false)
  if cfg.enableFloatOpt then phase2Go fl r1.1.length [] r1.1 r1.2 else r1

/-- A generic folder that never folds; used to instantiate the driver on
concrete programs whose instructions are not foldable. -/
def gfoldNone : IOp → Option ConstVal := fun _ => none

/-! ### The contraction analyzer on bare defining chains

`IsOperandNoContract` only ever walks from a value to the first operand of
its defining binary operator, so its behaviour is a function of that
defining chain alone; `DefTree` is that chain view (a non-binary-operator
value is a `leaf`; a binary operator records whether it is an
`FPMathOperator`, its fast-math flags and its two operand chains). -/
inductive DefTree
  | leaf
  | binop (isFP : Bool) (fmf : FastMathFlags) (a b : DefTree)
deriving DecidableEq, Repr

/-- `IsOperandNoContract` (lines 328-352 of the source) on the chain view:
non-binary-operator values answer `false`; a floating binary operator with
some fast-math bit set but not the contract bit answers `true`; otherwise
the answer is the recursive answer on the first operand (the loop in the
source returns on its first iteration). -/
def isOperandNoContract : DefTree → Bool
  | .leaf => false
  | .binop isFP fmf a _ =>
    if isFP && fmf.any && !fmf.allowContract then true
    else isOperandNoContract a

/-- The same query with an explicit recursion budget, `none` meaning the
budget was exhausted; this mirrors the unbounded C++ recursion so that its
termination on finite chains can be stated. -/
def isOperandNoContractFuel : Nat → DefTree → Option Bool
  | 0, _ => none
  | _ + 1, .leaf => some false
  | fuel + 1, .binop isFP fmf a _ =>
    if isFP && fmf.any && !fmf.allowContract then some true
    else isOperandNoContractFuel fuel a

/-- Length of the first-operand chain the query walks. -/
def chainDepth : DefTree → Nat
  | .leaf => 1
  | .binop _ _ a _ => chainDepth a + 1

/-! ### Concrete material used in statements -/

/-- The flush-to-zero lane matching a scalar width. -/
def flushMaskOf : FPWidth → Nat
  | .w16 => SPIRVTW_16Bit
  | .w32 => SPIRVTW_32Bit
  | .w64 => SPIRVTW_64Bit

/-- Bit pattern of negative zero at a given width. -/
def negZeroBits (w : FPWidth) : Nat := 2 ^ (w.expBits + w.manBits)

/-- Fast-math flags with only the contract-allowed bit set. -/
def fmfContractOnly : FastMathFlags :=
  ⟨false, false, false, false, false, true, false⟩

/-- A float add that allows contraction but not reassociation, with operand
chains (function arguments) that do not disallow contraction. -/
def cInst5 : Inst := ⟨0, .fbin .fadd .w32 (.arg 0) (.arg 1), fmfContractOnly⟩

/-- A float add of two arguments, used (only) by `i8b`. -/
def i8a : Inst := ⟨0, .fbin .fadd .w32 (.arg 0) (.arg 1), FMF0⟩

/-- An unused float add consuming `i8a`. -/
def i8b : Inst := ⟨1, .fbin .fadd .w32 (.ref 0) (.arg 0), FMF0⟩

/-! ## Helper lemmas -/

theorem flushCond_of_denormal (c : FPScalar) (h : c.isDenormalFP = true) :
    ((ConstVal.fp c).isFiniteNonZeroFP && !(ConstVal.fp c).isNormalFP) =
      true := by
  rcases c with ⟨w, bits⟩
  cases w <;>
    simp_all [FPScalar.isDenormalFP, ConstVal.isFiniteNonZeroFP,
      ConstVal.isNormalFP, FPScalar.isFiniteFP, FPScalar.isZeroFP,
      FPScalar.isNormalFP, FPScalar.exponent, FPScalar.mantissa,
      FPWidth.expBits, FPWidth.manBits]

/-! ## Claim C1 -/

/-- Claim C1 (counterexample): with the 16-bit flush lane set, the folded
negative half denormal `0x8001` is substituted by POSITIVE zero, so the
sign of the flushed denormal is not preserved; moreover a vector-typed
denormal result is not flushed at all, even with every lane's flag set. -/
theorem C1_counterexample :
    flushDenormIfNeeded ⟨SPIRVTW_16Bit, 0⟩ (.scalar .w16)
        (.fp ⟨.w16, 0x8001⟩) = .fp ⟨.w16, 0⟩ ∧
      FPScalar.sign ⟨.w16, 0x8001⟩ = 1 ∧ FPScalar.sign ⟨.w16, 0⟩ = 0 ∧
      FPScalar.isDenormalFP ⟨.w16, 0x8001⟩ = true ∧
      flushDenormIfNeeded
          ⟨SPIRVTW_16Bit ||| SPIRVTW_32Bit ||| SPIRVTW_64Bit, 0⟩
          (.fpVector .w16 2) (.fpVec [⟨.w16, 1⟩, ⟨.w16, 1⟩]) =
        .fpVec [⟨.w16, 1⟩, ⟨.w16, 1⟩] ∧
      FPScalar.isDenormalFP ⟨.w16, 1⟩ = true := by
  decide

/-- Claim C1 (amended): for every instruction whose result type is a
floating SCALAR (half, float or double; vector-typed results are not
flushed), whose first operand is a constant and which constant-folds to a
finite, non-zero value that is denormal for its bit-width while the
corresponding flush lane is set, the substituted constant is the POSITIVE
zero of the same type (`ConstantFP::get(type, 0.0)`); the sign of the
flushed denormal is not preserved. -/
theorem C1_amended :
    (∀ (fl : FpControlFlags) (w : FPWidth) (bits : Nat),
        ((fl.denormFlushToZero &&& flushMaskOf w) != 0) = true →
        FPScalar.isDenormalFP ⟨w, bits⟩ = true →
        flushDenormIfNeeded fl (.scalar w) (.fp ⟨w, bits⟩) = .fp ⟨w, 0⟩ ∧
          FPScalar.sign ⟨w, 0⟩ = 0) ∧
    (∀ (fl : FpControlFlags) (w : FPWidth) (n : Nat) (c : ConstVal),
        flushDenormIfNeeded fl (.fpVector w n) c = c) := by
  constructor
  · intro fl w bits hmask hden
    have hc := flushCond_of_denormal ⟨w, bits⟩ hden
    cases w <;>
      simp_all [flushDenormIfNeeded, flushMaskOf, DestType.isHalfTy,
        DestType.isFloatTy, DestType.isDoubleTy, constFPZero, FPScalar.sign]
  · intro fl w n c
    simp [flushDenormIfNeeded, DestType.isHalfTy, DestType.isFloatTy,
      DestType.isDoubleTy]

/-- Witness for `C1_amended` at the positive half denormal `0x0001`. -/
theorem C1_amended_witness :
    flushDenormIfNeeded ⟨SPIRVTW_16Bit, 0⟩ (.scalar .w16) (.fp ⟨.w16, 1⟩) =
      .fp ⟨.w16, 0⟩ :=
  (C1_amended.1 ⟨SPIRVTW_16Bit, 0⟩ .w16 1 (by decide) (by decide)).1

/-! ## Claim C2 -/

/-- The widening of a non-denormal finite half is exact (so the
round-toward-zero mode discards nothing) and its result is never a
single-precision denormal (so no flush could apply to the output). -/
theorem halfToFloat_exact (h : Nat) (hinf : halfExp h ≠ 31)
    (hden : halfIsDenormal h = false) :
    floatValScaled (halfBitsToFloatBits h) = halfValScaled h ∧
      floatIsDenormal (halfBitsToFloatBits h) = false := by
  have hs : halfSign h < 2 := Nat.mod_lt _ (by norm_num)
  have he : halfExp h < 32 := Nat.mod_lt _ (by norm_num)
  have hm : halfMan h < 2 ^ 10 := Nat.mod_lt _ (by norm_num)
  have hden' : halfExp h = 0 → halfMan h = 0 := by
    intro h0
    by_contra hmn
    simp [halfIsDenormal, h0, hmn] at hden
  by_cases h0 : halfExp h = 0
  · have hm0 : halfMan h = 0 := hden' h0
    have hb : halfBitsToFloatBits h = halfSign h * 2 ^ 31 := by
      simp [halfBitsToFloatBits, h0, hm0]
    rw [hb]
    have hval : halfValScaled h = 0 := by
      simp [halfValScaled, h0, hm0]
    rw [hval]
    have : halfSign h = 0 ∨ halfSign h = 1 := by omega
    rcases this with h1 | h1 <;> rw [h1] <;> decide
  · have he1 : 1 ≤ halfExp h := Nat.one_le_iff_ne_zero.mpr h0
    have he30 : halfExp h ≤ 30 := by omega
    have hb : halfBitsToFloatBits h =
        halfSign h * 2 ^ 31 + (halfExp h + 112) * 2 ^ 23 +
          halfMan h * 2 ^ 13 := by
      simp [halfBitsToFloatBits, h0, hinf]
    rw [hb]
    have p1 : floatExp (halfSign h * 2 ^ 31 + (halfExp h + 112) * 2 ^ 23 +
        halfMan h * 2 ^ 13) = halfExp h + 112 := by
      simp only [floatExp]
      omega
    have p2 : floatMan (halfSign h * 2 ^ 31 + (halfExp h + 112) * 2 ^ 23 +
        halfMan h * 2 ^ 13) = halfMan h * 2 ^ 13 := by
      simp only [floatMan]
      omega
    have p3 : floatSign (halfSign h * 2 ^ 31 + (halfExp h + 112) * 2 ^ 23 +
        halfMan h * 2 ^ 13) = halfSign h := by
      simp only [floatSign]
      omega
    constructor
    · simp only [floatValScaled, halfValScaled, p1, p2, p3]
      have hne : ¬(halfExp h + 112 = 0) := by omega
      rw [if_neg hne, if_neg h0]
      have hexp : halfExp h + 112 - 1 = halfExp h + 111 := by omega
      rw [hexp]
      have hmag : (2 ^ 23 + halfMan h * 2 ^ 13) * 2 ^ (halfExp h + 111) =
          (2 ^ 10 + halfMan h) * 2 ^ (halfExp h + 124) := by
        have h124 : halfExp h + 124 = halfExp h + 111 + 13 := by omega
        rw [h124, pow_add]
        ring
      rw [hmag]
    · have hne : halfExp h + 112 ≠ 0 := by omega
      simp only [floatIsDenormal]
      rw [p1]
      simp [hne]

/-- Claim C2 (counterexample): the low lane `0x8001` of the argument is a
NEGATIVE half denormal, yet the pass flushes it to positive zero
(`APFloat(IEEEhalf(), 0)`), producing the all-zero vector instead of the
sign-preserved vector `(-0.0, 0.0)` the claim demands. -/
theorem C2_counterexample :
    halfSign 0x8001 = 1 ∧ halfIsDenormal 0x8001 = true ∧
      unpackHalf2x16Fold 0x8001 = ConstVal.aggZero ∧
      unpackHalf2x16Fold 0x8001 ≠
        constantVectorGet [⟨.w32, 2 ^ 31⟩, ⟨.w32, 0⟩] := by
  decide

/-- Claim C2 (amended): for every call to the two-lane half-to-float unpack
builtin with a 32-bit integer constant argument (and the 16-bit flush lane
set), the constant is split into low and high 16-bit lanes, each decoded as
an IEEE half; a denormal lane is replaced by POSITIVE zero (irrespective of
the lane's sign) before widening; each resulting half is converted to
single precision with round-toward-zero — the conversion is exact, and
flush-to-zero is never applied to the output of the widening conversion,
whose result is never denormal; the two floats are packed into a 2-lane
float vector constant. -/
theorem C2_amended :
    (∀ v : Nat, v < 2 ^ 32 →
        unpackHalf2x16Fold v =
          constantVectorGet
            [⟨.w32, halfBitsToFloatBits (laneFlush (v % 2 ^ 16))⟩,
             ⟨.w32, halfBitsToFloatBits (laneFlush (v / 2 ^ 16 % 2 ^ 16))⟩]) ∧
    (∀ h : Nat, halfIsDenormal h = true →
        laneFlush h = 0 ∧ halfSign (laneFlush h) = 0 ∧
          halfBitsToFloatBits (laneFlush h) = 0 ∧ floatSign 0 = 0) ∧
    (∀ h : Nat, halfIsDenormal h = false → halfExp h ≠ 31 →
        floatValScaled (halfBitsToFloatBits (laneFlush h)) =
            halfValScaled h ∧
          floatIsDenormal (halfBitsToFloatBits (laneFlush h)) = false) := by
  refine ⟨fun v _ => rfl, fun h hden => ?_, fun h hden hinf => ?_⟩
  · have hf : laneFlush h = 0 := by simp [laneFlush, hden]
    rw [hf]
    refine ⟨rfl, by decide, by decide, by decide⟩
  · have hf : laneFlush h = h := by simp [laneFlush, hden]
    rw [hf]
    exact halfToFloat_exact h hinf hden

/-- Witness for `C2_amended`: the packed constant for argument
`0x3C008001` (high lane 1.0, low lane a negative denormal), and the exact
widening of the normal half 1.0. -/
theorem C2_amended_witness :
    unpackHalf2x16Fold 0x3C008001 =
        constantVectorGet
          [⟨.w32, halfBitsToFloatBits (laneFlush (0x3C008001 % 2 ^ 16))⟩,
           ⟨.w32,
             halfBitsToFloatBits (laneFlush (0x3C008001 / 2 ^ 16 % 2 ^ 16))⟩] ∧
      floatValScaled (halfBitsToFloatBits (laneFlush 0x3C00)) =
        halfValScaled 0x3C00 :=
  ⟨C2_amended.1 0x3C008001 (by decide),
    (C2_amended.2.2 0x3C00 (by decide) (by decide)).1⟩

/-! ## Claim C3 -/

/-- Claim C3 (confirmed): identity simplification of a float binary
operator fires only when both control masks are zero; under zero masks the
rewrites are exactly the claimed table (add yields the other operand, mul
yields the zero operand itself, div with zero numerator and non-zero-const
denominator yields the numerator, sub with zero subtrahend yields the left
operand); the simplifier chooses at most one replacement operand, after
which the visitor reports `replaced`, so the scan replaces all uses with it
and drops the instruction, marking changed. -/
theorem C3_theorem :
    (∀ (fl : FpControlFlags) (o : FOp) (a b : Opnd),
        (identitySimplify fl o a b).isSome = true →
        fl.denormFlushToZero = 0 ∧ fl.signedZeroInfNanPreserve = 0) ∧
    (∀ (fl : FpControlFlags) (a b d : Opnd),
        fl.denormFlushToZero = 0 → fl.signedZeroInfNanPreserve = 0 →
        (identitySimplify fl .fadd a b = some d ↔
            (isConstZero a = true ∧ d = b) ∨
              (isConstZero a = false ∧ isConstZero b = true ∧ d = a)) ∧
          (identitySimplify fl .fmul a b = some d ↔
            (isConstZero a = true ∧ d = a) ∨
              (isConstZero a = false ∧ isConstZero b = true ∧ d = b)) ∧
          (identitySimplify fl .fdiv a b = some d ↔
            isConstZero a = true ∧ isConstZero b = false ∧ d = a) ∧
          (identitySimplify fl .fsub a b = some d ↔
            isConstZero b = true ∧ d = a)) ∧
    (∀ (fl : FpControlFlags) (ctx : List Inst) (n : Nat) (w : FPWidth)
        (o : FOp) (a b d : Opnd) (fmf : FastMathFlags),
        identitySimplify fl o a b = some d →
        phase2Step fl ctx ⟨n, .fbin o w a b, fmf⟩ = .replaced d) ∧
    (∀ (fl : FpControlFlags) (fuel n : Nat) (w : FPWidth) (o : FOp)
        (a b d : Opnd) (fmf : FastMathFlags) (done rest : List Inst)
        (ch : Bool),
        identitySimplify fl o a b = some d →
        phase2Go fl (fuel + 1) done (⟨n, .fbin o w a b, fmf⟩ :: rest) ch =
          phase2Go fl fuel done (replaceUses n d rest) true) := by
  refine ⟨?_, ?_, ?_, ?_⟩
  · intro fl o a b hsome
    by_cases hg : (fl.denormFlushToZero == 0 &&
        fl.signedZeroInfNanPreserve == 0) = true
    · simpa using hg
    · simp [identitySimplify, hg] at hsome
  · intro fl a b d h1 h2
    refine ⟨?_, ?_, ?_, ?_⟩ <;>
      cases hza : isConstZero a <;> cases hzb : isConstZero b <;>
        simp [identitySimplify, h1, h2, hza, hzb, eq_comm]
  · intro fl ctx n w o a b d fmf hid
    simp [phase2Step, hid]
  · intro fl fuel n w o a b d fmf done rest ch hid
    simp [phase2Go, phase2Step, hid]

/-- Witness for `C3_theorem`: the visitor replaces `0.0 + %x` by `%x`. -/
theorem C3_witness :
    phase2Step ⟨0, 0⟩ [] ⟨0, .fbin .fadd .w32 (.const .aggZero) (.arg 1),
        FMF0⟩ = .replaced (.arg 1) :=
  C3_theorem.2.2.1 ⟨0, 0⟩ [] 0 .w32 .fadd (.const .aggZero) (.arg 1)
    (.arg 1) FMF0 (by decide)

/-! ## Claim C4 -/

/-- Claim C4 (confirmed): every float division the identity table did not
resolve is replaced — regardless of the control flags, which are
universally quantified here — by a call to the externally mangled runtime
`fdiv` with the two original operands and the original scalar result type;
the scan then continues past it with `m_changed` set (the uses of the
division keep referring to the same SSA id, now defined by the call). -/
theorem C4_theorem :
    (∀ (fl : FpControlFlags) (ctx : List Inst) (n : Nat) (w : FPWidth)
        (a b : Opnd) (fmf : FastMathFlags),
        identitySimplify fl .fdiv a b = none →
        phase2Step fl ctx ⟨n, .fbin .fdiv w a b, fmf⟩ =
          .fdivCall
            ⟨n, .call (mangleBuiltin "fdiv" [.scalar w, .scalar w])
              (.scalar w) false [a, b], FMF0⟩) ∧
    (∀ (fl : FpControlFlags) (fuel n : Nat) (w : FPWidth) (a b : Opnd)
        (fmf : FastMathFlags) (done rest : List Inst) (ch : Bool),
        identitySimplify fl .fdiv a b = none →
        phase2Go fl (fuel + 1) done (⟨n, .fbin .fdiv w a b, fmf⟩ :: rest)
            ch =
          phase2Go fl fuel
            (done ++ [⟨n, .call (mangleBuiltin "fdiv" [.scalar w, .scalar w])
              (.scalar w) false [a, b], FMF0⟩]) rest true) := by
  constructor
  · intro fl ctx n w a b fmf hid
    simp [phase2Step, hid]
  · intro fl fuel n w a b fmf done rest ch hid
    simp [phase2Go, phase2Step, hid]

/-- Witness for `C4_theorem` with non-zero control flags, showing the
fallback is not gated by them. -/
theorem C4_witness :
    phase2Step ⟨15, 1⟩ [] ⟨7, .fbin .fdiv .w64 (.arg 0) (.arg 1), FMF0⟩ =
      .fdivCall
        ⟨7, .call (mangleBuiltin "fdiv" [.scalar .w64, .scalar .w64])
          (.scalar .w64) false [.arg 0, .arg 1], FMF0⟩ :=
  C4_theorem.1 ⟨15, 1⟩ [] 7 .w64 (.arg 0) (.arg 1) FMF0 (by decide)

/-! ## Claim C5 -/

/-- Claim C5 (counterexample): a float add with the contraction-allowed
flag set and the reassociation-allowed flag clear, whose operands (plain
arguments) do not disallow contraction, does NOT keep its fast-math flags
unchanged: the flag rewrite forces the reassociation-allowed flag on. -/
theorem C5_counterexample :
    isNoContractIn [cInst5] 2 (.arg 0) = false ∧
      isNoContractIn [cInst5] 2 (.arg 1) = false ∧
      cInst5.fmf.allowContract = true ∧
      cInst5.fmf.allowReassoc = false ∧
      contractFlagStep [cInst5] cInst5 ≠ cInst5 ∧
      (contractFlagStep [cInst5] cInst5).fmf.allowReassoc = true := by
  decide

/-- Claim C5 (amended): for every float add whose contraction-allowed flag
is set, the rewrite sets the contraction-allowed and reassociation-allowed
flags together to the negation of "either operand's chain disallows
contraction": when some chain disallows it, both flags are cleared
together; when neither does, BOTH are set — the reassociation-allowed flag
is forced on even if it was previously clear; no other field of the
instruction (id, opcode, operands, remaining fast-math bits) is modified. -/
theorem C5_amended :
    ∀ (ctx : List Inst) (n : Nat) (w : FPWidth) (a b : Opnd)
      (fmf : FastMathFlags),
      fmf.allowContract = true →
      contractFlagStep ctx ⟨n, .fbin .fadd w a b, fmf⟩ =
          ⟨n, .fbin .fadd w a b,
            { fmf with
              allowReassoc := !(isNoContractIn ctx (ctx.length + 1) a ||
                isNoContractIn ctx (ctx.length + 1) b),
              allowContract := !(isNoContractIn ctx (ctx.length + 1) a ||
                isNoContractIn ctx (ctx.length + 1) b) }⟩ ∧
        ((isNoContractIn ctx (ctx.length + 1) a ||
            isNoContractIn ctx (ctx.length + 1) b) = true →
          (contractFlagStep ctx
                ⟨n, .fbin .fadd w a b, fmf⟩).fmf.allowContract = false ∧
            (contractFlagStep ctx
                ⟨n, .fbin .fadd w a b, fmf⟩).fmf.allowReassoc = false) ∧
        ((isNoContractIn ctx (ctx.length + 1) a ||
            isNoContractIn ctx (ctx.length + 1) b) = false →
          contractFlagStep ctx ⟨n, .fbin .fadd w a b, fmf⟩ =
            ⟨n, .fbin .fadd w a b,
              { fmf with allowReassoc := true, allowContract := true }⟩) := by
  intro ctx n w a b fmf hc
  have base : contractFlagStep ctx ⟨n, .fbin .fadd w a b, fmf⟩ =
      ⟨n, .fbin .fadd w a b,
        { fmf with
          allowReassoc := !(isNoContractIn ctx (ctx.length + 1) a ||
            isNoContractIn ctx (ctx.length + 1) b),
          allowContract := !(isNoContractIn ctx (ctx.length + 1) a ||
            isNoContractIn ctx (ctx.length + 1) b) }⟩ := by
    simp [contractFlagStep, hc]
  refine ⟨base, fun hnc => ?_, fun hnc => ?_⟩
  · rw [base]
    simp [hnc]
  · rw [base]
    simp [hnc]

/-- Witness for `C5_amended`: the reassociation flag is forced on for
`cInst5`. -/
theorem C5_amended_witness :
    contractFlagStep [] ⟨0, .fbin .fadd .w32 (.arg 0) (.arg 1),
        fmfContractOnly⟩ =
      ⟨0, .fbin .fadd .w32 (.arg 0) (.arg 1),
        { fmfContractOnly with
          allowReassoc := true
          allowContract := true }⟩ :=
  (C5_amended [] 0 .w32 (.arg 0) (.arg 1) fmfContractOnly
    (by decide)).2.2 (by decide)

/-! ## Claim C6 -/

/-- Claim C6 (confirmed): the contraction-eligibility query is a pure
function of the value's defining chain: it answers false for every value
not produced by a binary operator; for a floating binary operator with some
fast-math bit set but not the contraction-allowed bit it answers true
immediately; otherwise it answers exactly the recursive result on the
operator's first operand — the second operand is never inspected. -/
theorem C6_theorem :
    isOperandNoContract .leaf = false ∧
    (∀ (fmf : FastMathFlags) (a b : DefTree),
        (fmf.any && !fmf.allowContract) = true →
        isOperandNoContract (.binop true fmf a b) = true) ∧
    (∀ (isFP : Bool) (fmf : FastMathFlags) (a b : DefTree),
        (isFP && fmf.any && !fmf.allowContract) = false →
        isOperandNoContract (.binop isFP fmf a b) = isOperandNoContract a) ∧
    (∀ (isFP : Bool) (fmf : FastMathFlags) (a b bAlt : DefTree),
        isOperandNoContract (.binop isFP fmf a b) =
          isOperandNoContract (.binop isFP fmf a bAlt)) := by
  refine ⟨rfl, ?_, ?_, ?_⟩
  · intro fmf a b hc
    simp [isOperandNoContract, hc]
  · intro isFP fmf a b hc
    simp [isOperandNoContract, hc]
  · intro isFP fmf a b bAlt
    rfl

/-- Witness for `C6_theorem`: a floating binary operator carrying only the
no-NaNs bit answers true. -/
theorem C6_witness :
    isOperandNoContract
      (.binop true ⟨false, true, false, false, false, false, false⟩
        .leaf .leaf) = true :=
  C6_theorem.2.1 ⟨false, true, false, false, false, false, false⟩
    .leaf .leaf (by decide)

/-! ## Claim C9 -/

/-- Claim C9 (confirmed): the constant-zero test of the identity
simplifier accepts negative zero (`ConstantFP::isZero` holds for both
zeros) and all-zero aggregates, so an identity fires for a `-0.0` operand
exactly when it fires for a `+0.0` operand; in particular `x + (-0.0)`
rewrites to `x` under zero control masks. -/
theorem C9_theorem :
    (∀ w : FPWidth, isConstZero (.const (.fp ⟨w, negZeroBits w⟩)) = true) ∧
    isConstZero (.const .aggZero) = true ∧
    (∀ (fl : FpControlFlags) (o : FOp) (x : Opnd) (w : FPWidth),
        (identitySimplify fl o x
              (.const (.fp ⟨w, negZeroBits w⟩))).isSome =
            (identitySimplify fl o x (.const (.fp ⟨w, 0⟩))).isSome ∧
          (identitySimplify fl o (.const (.fp ⟨w, negZeroBits w⟩))
              x).isSome =
            (identitySimplify fl o (.const (.fp ⟨w, 0⟩)) x).isSome) ∧
    (∀ (w : FPWidth) (x : Opnd), isConstZero x = false →
        identitySimplify ⟨0, 0⟩ .fadd x
            (.const (.fp ⟨w, negZeroBits w⟩)) =
          some x) := by
  have hneg : ∀ w : FPWidth,
      isConstZero (.const (.fp ⟨w, negZeroBits w⟩)) = true := by
    intro w
    cases w <;> decide
  have hpos : ∀ w : FPWidth, isConstZero (.const (.fp ⟨w, 0⟩)) = true := by
    intro w
    cases w <;> decide
  refine ⟨hneg, rfl, ?_, ?_⟩
  · intro fl o x w
    by_cases hg : (fl.denormFlushToZero == 0 &&
        fl.signedZeroInfNanPreserve == 0) = true
    · cases o <;> cases hx : isConstZero x <;>
        simp [identitySimplify, hg, hx, hneg w, hpos w]
    · simp [identitySimplify, hg]
  · intro w x hx
    simp [identitySimplify, hx, hneg w]

/-- Witness for `C9_theorem`: `%x + (-0.0f)` rewrites to `%x`. -/
theorem C9_witness :
    identitySimplify ⟨0, 0⟩ .fadd (.arg 0)
        (.const (.fp ⟨.w32, negZeroBits .w32⟩)) =
      some (.arg 0) :=
  C9_theorem.2.2.2 .w32 (.arg 0) (by decide)

/-! ## Claim C10 -/

/-- Claim C10 (confirmed): the contraction-eligibility query terminates on
every finite defining chain: each recursive step moves to the first
operand, so with any recursion budget at least the first-operand chain
length the budget-limited mirror of the C++ recursion returns (and agrees
with the total chain function). -/
theorem C10_theorem :
    ∀ (t : DefTree) (fuel : Nat), chainDepth t ≤ fuel →
      isOperandNoContractFuel fuel t = some (isOperandNoContract t) := by
  intro t
  induction t with
  | leaf =>
    intro fuel hf
    cases fuel with
    | zero => simp [chainDepth] at hf
    | succ fuel => simp [isOperandNoContractFuel, isOperandNoContract]
  | binop isFP fmf a b iha ihb =>
    intro fuel hf
    cases fuel with
    | zero => simp [chainDepth] at hf
    | succ fuel =>
      by_cases hc : (isFP && fmf.any && !fmf.allowContract) = true
      · simp [isOperandNoContractFuel, isOperandNoContract, hc]
      · simp only [isOperandNoContractFuel, isOperandNoContract,
          Bool.not_eq_true] at hc ⊢
        rw [hc]
        simp only [Bool.false_eq_true, if_false]
        exact iha fuel (by simp [chainDepth] at hf; omega)

/-- Witness for `C10_theorem` on a two-node chain with budget 5. -/
theorem C10_witness :
    isOperandNoContractFuel 5 (.binop true FMF0 .leaf .leaf) =
      some (isOperandNoContract (.binop true FMF0 .leaf .leaf)) :=
  C10_theorem (.binop true FMF0 .leaf .leaf) 5 (by decide)

/-! ## Helper lemmas about the driver -/

theorem map_strip_replaceUses (n : Nat) (v : Opnd) (l : List Inst) :
    (replaceUses n v l).map stripFmf = replaceUses n v (l.map stripFmf) := by
  simp only [replaceUses, List.map_map]
  rfl

theorem usesRef_strip (n : Nat) (l : List Inst) :
    usesRef n (l.map stripFmf) = usesRef n l := by
  simp only [usesRef, List.any_map]
  rfl

theorem isTrivDead_strip (i : Inst) (l : List Inst) :
    isTrivDead (stripFmf i) (l.map stripFmf) = isTrivDead i l := by
  simp only [isTrivDead, usesRef_strip]
  rfl

theorem phase1Step_strip (g : IOp → Option ConstVal) (fl : FpControlFlags)
    (i : Inst) (rest : List Inst) :
    phase1Step g fl (stripFmf i) (rest.map stripFmf) =
      phase1Step g fl i rest := by
  simp only [phase1Step, isTrivDead_strip, usesRef_strip]
  rfl

theorem contractFlagStep_strip (ctx : List Inst) (i : Inst) :
    stripFmf (contractFlagStep ctx i) = stripFmf i := by
  rcases i with ⟨n, op, fmf⟩
  cases op with
  | fbin o w a b =>
    cases o with
    | fadd =>
      simp only [contractFlagStep]
      split <;> rfl
    | fsub => rfl
    | fmul => rfl
    | fdiv => rfl
  | ibin a b => rfl
  | call f t p args => rfl
  | generic t se te args => rfl

theorem contractFlagStep_of_strip (ctx : List Inst) (i : Inst) :
    contractFlagStep ctx (stripFmf i) = stripFmf i := by
  rcases i with ⟨n, op, fmf⟩
  cases op with
  | fbin o w a b => cases o <;> rfl
  | ibin a b => rfl
  | call f t p args => rfl
  | generic t se te args => rfl

theorem phase2Step_keep_strip (fl : FpControlFlags) (ctx : List Inst)
    (i j : Inst) (h : phase2Step fl ctx i = .keep j) :
    stripFmf j = stripFmf i := by
  rcases i with ⟨n, op, fmf⟩
  cases op with
  | fbin o w a b =>
    rcases hid : identitySimplify fl o a b with _ | d
    · by_cases ho : o = .fdiv
      · subst ho
        simp [phase2Step, hid] at h
      · simp only [phase2Step, hid, if_neg ho] at h
        cases h
        exact contractFlagStep_strip ctx ⟨n, .fbin o w a b, fmf⟩
    · simp [phase2Step, hid] at h
  | ibin a b =>
    simp only [phase2Step] at h
    cases h
    rfl
  | call f t p args =>
    simp only [phase2Step] at h
    cases h
    rfl
  | generic t se te args =>
    simp only [phase2Step] at h
    cases h
    rfl

theorem phase2Step_strip_keep (fl : FpControlFlags) (ctx ctx2 : List Inst)
    (i j : Inst) (h : phase2Step fl ctx i = .keep j) :
    phase2Step fl ctx2 (stripFmf i) = .keep (stripFmf j) := by
  have hj : stripFmf j = stripFmf i := phase2Step_keep_strip fl ctx i j h
  rw [hj]
  rcases i with ⟨n, op, fmf⟩
  cases op with
  | fbin o w a b =>
    rcases hid : identitySimplify fl o a b with _ | d
    · by_cases ho : o = .fdiv
      · subst ho
        simp [phase2Step, hid] at h
      · show phase2Step fl ctx2 ⟨n, .fbin o w a b, FMF0⟩ =
          .keep (stripFmf ⟨n, .fbin o w a b, fmf⟩)
        simp only [phase2Step, hid, if_neg ho]
        exact congrArg Phase2Out.keep
          (contractFlagStep_of_strip ctx2 ⟨n, .fbin o w a b, fmf⟩)
    · simp [phase2Step, hid] at h
  | ibin a b => rfl
  | call f t p args => rfl
  | generic t se te args => rfl

theorem phase2Step_strip_replaced (fl : FpControlFlags) (ctx ctx2 : List Inst)
    (i : Inst) (v : Opnd) (h : phase2Step fl ctx i = .replaced v) :
    phase2Step fl ctx2 (stripFmf i) = .replaced v := by
  rcases i with ⟨n, op, fmf⟩
  cases op with
  | fbin o w a b =>
    rcases hid : identitySimplify fl o a b with _ | d
    · by_cases ho : o = .fdiv
      · subst ho
        simp [phase2Step, hid] at h
      · simp [phase2Step, hid, ho] at h
    · show phase2Step fl ctx2 ⟨n, .fbin o w a b, FMF0⟩ = .replaced v
      simp only [phase2Step, hid] at h ⊢
      exact h
  | ibin a b => simp [phase2Step] at h
  | call f t p args => simp [phase2Step] at h
  | generic t se te args => simp [phase2Step] at h

theorem phase2Step_strip_fdiv (fl : FpControlFlags) (ctx ctx2 : List Inst)
    (i c : Inst) (h : phase2Step fl ctx i = .fdivCall c) :
    phase2Step fl ctx2 (stripFmf i) = .fdivCall c ∧ stripFmf c = c := by
  rcases i with ⟨n, op, fmf⟩
  cases op with
  | fbin o w a b =>
    rcases hid : identitySimplify fl o a b with _ | d
    · by_cases ho : o = .fdiv
      · subst ho
        simp only [phase2Step, hid, if_pos rfl] at h
        cases h
        constructor
        · show phase2Step fl ctx2 ⟨n, .fbin .fdiv w a b, FMF0⟩ = _
          simp [phase2Step, hid]
        · rfl
      · simp [phase2Step, hid, ho] at h
    · simp [phase2Step, hid] at h
  | ibin a b => simp [phase2Step] at h
  | call f t p args => simp [phase2Step] at h
  | generic t se te args => simp [phase2Step] at h

theorem p1_mono (g : IOp → Option ConstVal) (fl : FpControlFlags) :
    ∀ (fuel : Nat) (p : List Inst) (ch : Bool),
      (phase1Go g fl fuel p ch).2 =
        (ch || (phase1Go g fl fuel p false).2) := by
  intro fuel
  induction fuel with
  | zero => intro p ch; simp [phase1Go]
  | succ fuel ih =>
    intro p ch
    cases p with
    | nil => simp [phase1Go]
    | cons i rest =>
      simp only [phase1Go]
      rcases hstep : phase1Step g fl i rest with _ | _ | c <;>
        simp only [hstep]
      · rw [ih rest true]
        simp
      · rw [ih rest ch]
      · by_cases hd :
          isTrivDead i (replaceUses i.id (.const c) rest) = true <;>
          simp only [hd, if_true, if_false, Bool.false_eq_true] <;>
          rw [ih _ true] <;> simp

theorem p1_noChange (g : IOp → Option ConstVal) (fl : FpControlFlags) :
    ∀ (fuel : Nat) (p : List Inst),
      (phase1Go g fl fuel p false).2 = false →
      phase1Go g fl fuel p false = (p, false) := by
  intro fuel
  induction fuel with
  | zero => intro p _; rfl
  | succ fuel ih =>
    intro p h
    cases p with
    | nil => rfl
    | cons i rest =>
      simp only [phase1Go] at h ⊢
      rcases hstep : phase1Step g fl i rest with _ | _ | c <;>
        simp only [hstep] at h ⊢
      · rw [p1_mono g fl fuel rest true] at h
        simp at h
      · rw [ih rest h]
      · by_cases hd :
          isTrivDead i (replaceUses i.id (.const c) rest) = true <;>
          simp only [hd, if_true, if_false, Bool.false_eq_true] at h <;>
          rw [p1_mono g fl fuel _ true] at h <;> simp at h

theorem p1_strip (g : IOp → Option ConstVal) (fl : FpControlFlags) :
    ∀ (fuel : Nat) (p : List Inst) (ch : Bool),
      phase1Go g fl fuel (p.map stripFmf) ch =
        ((phase1Go g fl fuel p ch).1.map stripFmf,
          (phase1Go g fl fuel p ch).2) := by
  intro fuel
  induction fuel with
  | zero => intro p ch; rfl
  | succ fuel ih =>
    intro p ch
    cases p with
    | nil => rfl
    | cons i rest =>
      simp only [List.map_cons, phase1Go, phase1Step_strip]
      rcases hstep : phase1Step g fl i rest with _ | _ | c <;>
        simp only [hstep]
      · exact ih rest true
      · rw [ih rest ch]
        simp
      · have hid : (stripFmf i).id = i.id := rfl
        rw [hid, ← map_strip_replaceUses, isTrivDead_strip]
        by_cases hd :
          isTrivDead i (replaceUses i.id (.const c) rest) = true <;>
          simp only [hd, if_true, if_false, Bool.false_eq_true] <;>
          simp [ih]

theorem p2_mono (fl : FpControlFlags) :
    ∀ (fuel : Nat) (done p : List Inst) (ch : Bool),
      (phase2Go fl fuel done p ch).2 =
        (ch || (phase2Go fl fuel done p false).2) := by
  intro fuel
  induction fuel with
  | zero => intro done p ch; simp [phase2Go]
  | succ fuel ih =>
    intro done p ch
    cases p with
    | nil => simp [phase2Go]
    | cons i rest =>
      simp only [phase2Go]
      rcases hstep : phase2Step fl (done ++ i :: rest) i with j | v | c <;>
        simp only [hstep]
      · exact ih (done ++ [j]) rest ch
      · rw [ih done _ true]
        simp
      · rw [ih (done ++ [c]) rest true]
        simp

theorem p2_noChange_strip (fl : FpControlFlags) :
    ∀ (fuel : Nat) (done p : List Inst),
      (phase2Go fl fuel done p false).2 = false →
      (phase2Go fl fuel done p false).1.map stripFmf =
        done.map stripFmf ++ p.map stripFmf := by
  intro fuel
  induction fuel with
  | zero => intro done p _; simp [phase2Go]
  | succ fuel ih =>
    intro done p h
    cases p with
    | nil => simp [phase2Go]
    | cons i rest =>
      simp only [phase2Go] at h ⊢
      rcases hstep : phase2Step fl (done ++ i :: rest) i with j | v | c <;>
        simp only [hstep] at h ⊢
      · have hj : stripFmf j = stripFmf i :=
          phase2Step_keep_strip fl (done ++ i :: rest) i j hstep
        rw [ih (done ++ [j]) rest h]
        simp [hj]
      · rw [p2_mono fl fuel done _ true] at h
        simp at h
      · rw [p2_mono fl fuel (done ++ [c]) rest true] at h
        simp at h

theorem p2_strip (fl : FpControlFlags) :
    ∀ (fuel : Nat) (done p : List Inst) (ch : Bool),
      phase2Go fl fuel (done.map stripFmf) (p.map stripFmf) ch =
        ((phase2Go fl fuel done p ch).1.map stripFmf,
          (phase2Go fl fuel done p ch).2) := by
  intro fuel
  induction fuel with
  | zero => intro done p ch; simp [phase2Go]
  | succ fuel ih =>
    intro done p ch
    cases p with
    | nil => simp [phase2Go]
    | cons i rest =>
      simp only [List.map_cons, phase2Go]
      rcases hstep : phase2Step fl (done ++ i :: rest) i with j | v | c
      · rw [phase2Step_strip_keep fl (done ++ i :: rest)
          (done.map stripFmf ++ stripFmf i :: rest.map stripFmf) i j hstep]
        simp only [hstep]
        have hd : done.map stripFmf ++ [stripFmf j] =
            (done ++ [j]).map stripFmf := by simp
        rw [hd]
        exact ih (done ++ [j]) rest ch
      · rw [phase2Step_strip_replaced fl (done ++ i :: rest)
          (done.map stripFmf ++ stripFmf i :: rest.map stripFmf) i v hstep]
        simp only [hstep]
        have hid : (stripFmf i).id = i.id := rfl
        rw [hid, ← map_strip_replaceUses]
        exact ih done _ true
      · obtain ⟨hstep2, hcc⟩ := phase2Step_strip_fdiv fl (done ++ i :: rest)
          (done.map stripFmf ++ stripFmf i :: rest.map stripFmf) i c hstep
        rw [hstep2]
        simp only [hstep]
        have hd : done.map stripFmf ++ [c] = (done ++ [c]).map stripFmf := by
          simp [hcc]
        rw [hd]
        exact ih (done ++ [c]) rest true

theorem run_strip (g : IOp → Option ConstVal) (cfg : PassConfig)
    (fl : FpControlFlags) (p : List Inst) :
    runOnModule g cfg fl (p.map stripFmf) =
      ((runOnModule g cfg fl p).1.map stripFmf,
        (runOnModule g cfg fl p).2) := by
  unfold runOnModule
  by_cases h1 : (cfg.enableConstFolding && fl.denormFlushToZero != 0) = true <;>
    by_cases h2 : cfg.enableFloatOpt = true <;>
      simp only [h1, h2, if_true, Bool.false_eq_true, if_false,
        List.length_map, p1_strip g fl]
  · exact p2_strip fl _ [] _ _
  · exact p2_strip fl _ [] _ _

theorem run_noChange (g : IOp → Option ConstVal) (cfg : PassConfig)
    (fl : FpControlFlags) (p : List Inst)
    (h : (runOnModule g cfg fl p).2 = false) :
    (runOnModule g cfg fl p).1.map stripFmf = p.map stripFmf := by
  unfold runOnModule at h ⊢
  by_cases h1 : (cfg.enableConstFolding && fl.denormFlushToZero != 0) = true <;>
    by_cases h2 : cfg.enableFloatOpt = true <;>
      simp only [h1, h2, if_true, Bool.false_eq_true, if_false] at h ⊢
  · rw [p2_mono fl _ [] _ _] at h
    have hc1 : (phase1Go g fl p.length p false).2 = false := by
      rcases Bool.or_eq_false_iff.mp h with ⟨ha, _⟩
      exact ha
    have hr1 := p1_noChange g fl p.length p hc1
    rw [hr1] at h ⊢
    rcases Bool.or_eq_false_iff.mp h with ⟨_, hb⟩
    have hout := p2_noChange_strip fl p.length [] p hb
    simpa using hout
  · have hr1 := p1_noChange g fl p.length p h
    rw [hr1]
  · rw [p2_mono fl _ [] _ _] at h
    rcases Bool.or_eq_false_iff.mp h with ⟨_, hb⟩
    have hout := p2_noChange_strip fl p.length [] p hb
    simpa using hout

/-! ## Claim C7 -/

/-- Claim C7 (counterexample): a run that performs a rewrite — the
fast-math-flag rewrite on `cInst5`, which changes the instruction — still
returns `changed = false`: the flag rewrite does not set the changed flag,
contradicting the claim's list of triggering events. -/
theorem C7_counterexample :
    (runOnModule gfoldNone ⟨false, true⟩ ⟨0, 0⟩ [cInst5]).2 = false ∧
      (runOnModule gfoldNone ⟨false, true⟩ ⟨0, 0⟩ [cInst5]).1 ≠ [cInst5] := by
  decide

/-- Claim C7 (amended): the `changed` flag is monotone — in both phases it
accumulates by disjunction onto whatever it already was, so once set it is
never reset — and the pass returns it; it is set exactly by the structural
rewrites (dead-instruction removal, constant-fold substitution, half-unpack
substitution, identity simplification, division fallback) and NOT by the
fast-math-flag rewrite, so a `false` return guarantees only that the graph
is unchanged up to fast-math flags; absence of any rewrite yields `false`
rather than an error. -/
theorem C7_amended :
    (∀ (g : IOp → Option ConstVal) (fl : FpControlFlags) (fuel : Nat)
        (p : List Inst) (ch : Bool),
        (phase1Go g fl fuel p ch).2 =
          (ch || (phase1Go g fl fuel p false).2)) ∧
    (∀ (fl : FpControlFlags) (fuel : Nat) (done p : List Inst) (ch : Bool),
        (phase2Go fl fuel done p ch).2 =
          (ch || (phase2Go fl fuel done p false).2)) ∧
    (∀ (g : IOp → Option ConstVal) (cfg : PassConfig) (fl : FpControlFlags)
        (p : List Inst),
        (runOnModule g cfg fl p).2 = false →
        (runOnModule g cfg fl p).1.map stripFmf = p.map stripFmf) :=
  ⟨fun g fl => p1_mono g fl, fun fl => p2_mono fl,
    fun g cfg fl p h => run_noChange g cfg fl p h⟩

/-- Witness for `C7_amended` on a concrete no-rewrite run. -/
theorem C7_amended_witness :
    (runOnModule gfoldNone ⟨false, false⟩ ⟨0, 0⟩ [cInst5]).1.map stripFmf =
      [cInst5].map stripFmf :=
  C7_amended.2.2 gfoldNone ⟨false, false⟩ ⟨0, 0⟩ [cInst5] (by decide)

/-! ## Claim C8 -/

/-- Claim C8 (counterexample): the pass is not idempotent.  On the program
`[i8a, i8b]` (with constant folding enabled and the 16-bit flush lane set)
the first run erases only the trivially dead `i8b` — the forward scan has
already passed `i8a`, which only now became dead — and the second run
erases `i8a`, returning `changed = true` and a different graph. -/
theorem C8_counterexample :
    runOnModule gfoldNone ⟨true, false⟩ ⟨SPIRVTW_16Bit, 0⟩ [i8a, i8b] =
        ([i8a], true) ∧
      runOnModule gfoldNone ⟨true, false⟩ ⟨SPIRVTW_16Bit, 0⟩ [i8a] =
        ([], true) := by
  decide

/-- Claim C8 (amended): a second run of the pass need not return `false`
(newly exposed dead instructions can be rewritten); what holds is: whenever
a run returns `changed = false`, an immediately following run with the same
configuration and flags also returns `changed = false` and leaves the
instruction graph identical up to fast-math flags. -/
theorem C8_amended :
    ∀ (g : IOp → Option ConstVal) (cfg : PassConfig) (fl : FpControlFlags)
      (p : List Inst),
      (runOnModule g cfg fl p).2 = false →
      (runOnModule g cfg fl (runOnModule g cfg fl p).1).2 = false ∧
        (runOnModule g cfg fl (runOnModule g cfg fl p).1).1.map stripFmf =
          (runOnModule g cfg fl p).1.map stripFmf := by
  intro g cfg fl p h
  have e1 : (runOnModule g cfg fl p).1.map stripFmf = p.map stripFmf :=
    run_noChange g cfg fl p h
  have c1 := run_strip g cfg fl ((runOnModule g cfg fl p).1)
  have c2 := run_strip g cfg fl p
  rw [e1] at c1
  have c3 := c1.symm.trans c2
  constructor
  · have hsnd := congrArg Prod.snd c3
    simp only at hsnd
    rw [hsnd, h]
  · have hfst := congrArg Prod.fst c3
    simpa using hfst

/-- Witness for `C8_amended` on a concrete fixed-point run. -/
theorem C8_amended_witness :
    (runOnModule gfoldNone ⟨false, false⟩ ⟨0, 0⟩
        (runOnModule gfoldNone ⟨false, false⟩ ⟨0, 0⟩ [i8a]).1).2 = false ∧
      (runOnModule gfoldNone ⟨false, false⟩ ⟨0, 0⟩
          (runOnModule gfoldNone ⟨false, false⟩ ⟨0, 0⟩ [i8a]).1).1.map
          stripFmf =
        (runOnModule gfoldNone ⟨false, false⟩ ⟨0, 0⟩ [i8a]).1.map stripFmf :=
  C8_amended gfoldNone ⟨false, false⟩ ⟨0, 0⟩ [i8a] (by decide)
